import Mathlib

/-!
Verification of the SmartWorkrooms document-search and context-assembly code.

JavaScript strings are modelled as `List Char`; JavaScript numbers arising in
the scoring code are exact rationals (`ℚ`).  All scores here are quotients of
small integers, far away from any double-rounding boundary, so exact rational
arithmetic agrees with the IEEE-double comparisons performed by the code.
-/

set_option allowUnsafeReducibility true in
attribute [semireducible] Rat.mul Rat.inv Rat.add Rat.sub

/-- A JavaScript string, modelled as its list of characters. -/
abbrev JSStr := List Char

/-- Model of `String.prototype.toLowerCase` (character-wise lowering). -/
def jsLower (s : JSStr) : JSStr := s.map Char.toLower

/-- Model of `needle` being a prefix of `hay` (used by substring search). -/
def isPre : JSStr → JSStr → Bool
  | [], _ => true
  | _ :: _, [] => false
  | a :: as, b :: bs => a == b && isPre as bs

/-- Model of `hay.includes(needle)`: `needle` occurs contiguously in `hay`. -/
def isSubOf (needle : JSStr) : JSStr → Bool
  | [] => needle.isEmpty
  | c :: cs => isPre needle (c :: cs) || isSubOf needle cs

/-- Model of `Array.prototype.join(sep)` on an array of strings. -/
def jsJoin (sep : JSStr) : List JSStr → JSStr
  | [] => []
  | [x] => x
  | x :: y :: xs => x ++ sep ++ jsJoin sep (y :: xs)

/-- Model of `s.split(/\s+/)`: pieces between maximal whitespace runs, with an
empty piece at either end when the string starts or ends with whitespace, and
`[""]` for the empty string (JavaScript `split` semantics). -/
def splitWS : JSStr → List JSStr
  | [] => [[]]
  | c :: cs =>
    if c.isWhitespace then
      match cs with
      | [] => [] :: splitWS []
      | c2 :: cs2 =>
        if c2.isWhitespace then splitWS (c2 :: cs2) else [] :: splitWS (c2 :: cs2)
    else
      match splitWS cs with
      | [] => [[c]]
      | p :: ps => (c :: p) :: ps

/-- Model of `s.trim()`: strip whitespace from both ends. -/
def jsTrim (s : JSStr) : JSStr :=
  ((s.dropWhile Char.isWhitespace).reverse.dropWhile Char.isWhitespace).reverse

/-- Token estimator from `sendMessage`: `Math.ceil(text.length / 4)`. -/
def estimateTokens (s : JSStr) : Nat := (s.length + 3) / 4

/-! ### A stable descending sort

`Array.prototype.sort` with comparator `(a, b) => key(b) - key(a)` is a stable
descending sort by `key`.  A stable sort is extensionally the unique sort with
respect to the lexicographic order (key descending, original position
ascending), so it is modelled by tagging each element with its position via
`enum`, insertion-sorting by that lexicographic order, and untagging. -/

/-- The lexicographic order used to model a stable descending JS sort:
higher key first and, on key ties, lower original position first. -/
def sortRel [LinearOrder β] (key : α → β) (p q : Nat × α) : Prop :=
  key q.2 < key p.2 ∨ (key p.2 = key q.2 ∧ p.1 ≤ q.1)

instance [LinearOrder β] (key : α → β) : DecidableRel (sortRel key) := by
  intro p q
  unfold sortRel
  infer_instance

instance [LinearOrder β] (key : α → β) : IsTotal (Nat × α) (sortRel key) := by
  constructor
  intro p q
  rcases lt_trichotomy (key p.2) (key q.2) with h | h | h
  · exact Or.inr (Or.inl h)
  · rcases Nat.le_total p.1 q.1 with h' | h'
    · exact Or.inl (Or.inr ⟨h, h'⟩)
    · exact Or.inr (Or.inr ⟨h.symm, h'⟩)
  · exact Or.inl (Or.inl h)

instance [LinearOrder β] (key : α → β) : IsTrans (Nat × α) (sortRel key) := by
  constructor
  intro p q s hpq hqs
  rcases hpq with h1 | ⟨h1, h1'⟩
  · rcases hqs with h2 | ⟨h2, h2'⟩
    · exact Or.inl (h2.trans h1)
    · exact Or.inl (h2 ▸ h1)
  · rcases hqs with h2 | ⟨h2, h2'⟩
    · exact Or.inl (h1 ▸ h2)
    · exact Or.inr ⟨h1.trans h2, h1'.trans h2'⟩

/-- Model of `array.sort((a, b) => key(b) - key(a))`: stable descending sort. -/
def jsSortDesc [LinearOrder β] (key : α → β) (l : List α) : List α :=
  ((l.enum).insertionSort (sortRel key)).map Prod.snd

/-! ### The semantic search code (`AIService` in the source) -/

/-- The document record handed to `semanticSearch` (fields the search uses). -/
structure UploadedPDF where
  id : JSStr
  name : JSStr
  content : JSStr
deriving DecidableEq

/-- One entry of `relevantChunks` in a `SemanticSearchResult`. -/
structure ChunkResult where
  text : JSStr
  score : ℚ
  startIndex : Nat
  endIndex : Nat
deriving DecidableEq

/-- One search result of `semanticSearch`. -/
structure SemanticSearchResult where
  documentId : JSStr
  documentName : JSStr
  relevantChunks : List ChunkResult
  overallScore : ℚ
deriving DecidableEq

/-- Error monad used to model the `try`/`catch` blocks of the source. -/
abbrev JSRes (α : Type) := Except (List Char) α

/-- Sequential effectful map: the `for` loops of the source, where any thrown
error aborts the loop and propagates. -/
def mapE (f : α → JSRes β) : List α → JSRes (List β)
  | [] => Except.ok []
  | a :: as => (f a).bind fun b => (mapE f as).map fun bs => b :: bs

/-- The query tokens of `calculateSemanticSimilarity`:
`query.toLowerCase().split(' ')` (split on the single space character). -/
def queryTokens (q : JSStr) : List JSStr := (jsLower q).splitOn ' '

/-- A query word matches when some text word contains it or it contains that
text word (`textWord.includes(word) || word.includes(textWord)`). -/
def wordMatches (textWords : List JSStr) (word : JSStr) : Bool :=
  textWords.any fun tw => isSubOf word tw || isSubOf tw word

/-- The body of `calculateSemanticSimilarity`, with the one JavaScript
operation that could produce an anomalous value — the division
`matches / queryWords.length` — modelled as guarded: a zero denominator is
the sole anomalous outcome (JavaScript itself would yield `NaN`, not throw;
the guard is proved unreachable below). -/
def calcSimE (q t : JSStr) : JSRes ℚ :=
  let qw := queryTokens q
  let tw := (jsLower t).splitOn ' '
  if qw.length = 0 then Except.error (("division by zero").toList)
  else Except.ok ((qw.countP (wordMatches tw) : ℚ) / (qw.length : ℚ))

/-- `calculateSemanticSimilarity`: the `catch` branch of the source returns
`0`; the `try` body is `calcSimE`. -/
def calculateSemanticSimilarity (q t : JSStr) : ℚ :=
  match calcSimE q t with
  | Except.ok v => v
  | Except.error _ => 0

/-- Structural-fuel version of the chunking loop
`for (i = 0; i < content.length; i += chunkSize)`. -/
def chunkAux (size : Nat) : Nat → JSStr → List JSStr
  | _, [] => []
  | 0, l => [l]
  | fuel + 1, c :: cs => (c :: cs).take size :: chunkAux size fuel ((c :: cs).drop size)

/-- `chunkDocument(content, chunkSize)`: consecutive `substring` windows. -/
def chunkDocument (content : JSStr) (size : Nat) : List JSStr :=
  chunkAux size content.length content

/-- The per-chunk step of `semanticSearch`: keep the chunk exactly when its
score exceeds the `0.3` relevance threshold, recording
`startIndex = i * 500` and `endIndex = min((i + 1) * 500, content.length)`. -/
def chunkStep (q : JSStr) (contentLen : Nat) (p : Nat × JSStr) : Option ChunkResult :=
  let s := calculateSemanticSimilarity q p.2
  if (3 : ℚ) / 10 < s then
    some ⟨p.2, s, p.1 * 500, min ((p.1 + 1) * 500) contentLen⟩
  else none

/-- Effectful form of `chunkStep`, propagating a similarity error. -/
def chunkStepE (q : JSStr) (contentLen : Nat) (p : Nat × JSStr) : JSRes (Option ChunkResult) :=
  (calcSimE q p.2).map fun s =>
    if (3 : ℚ) / 10 < s then
      some ⟨p.2, s, p.1 * 500, min ((p.1 + 1) * 500) contentLen⟩
    else none

/-- The `relevantChunks` accumulated for one document (before sorting). -/
def passingChunks (q content : JSStr) : List ChunkResult :=
  ((chunkDocument content 500).enum).filterMap (chunkStep q content.length)

/-- The result `semanticSearch` pushes for one document: `none` when no chunk
passes the threshold; otherwise the top 3 chunks by score (stable descending
sort, then `slice(0, 3)`) together with the mean score of all passing
chunks. -/
def mkResult (q : JSStr) (d : UploadedPDF) : Option SemanticSearchResult :=
  let rc := passingChunks q d.content
  if rc.length = 0 then none
  else some ⟨d.id, d.name, (jsSortDesc (fun c => c.score) rc).take 3,
    ((rc.map fun c => c.score).sum : ℚ) / (rc.length : ℚ)⟩

/-- The per-document results of `semanticSearch` in document order. -/
def rawResults (q : JSStr) (docs : List UploadedPDF) : List SemanticSearchResult :=
  docs.filterMap (mkResult q)

/-- `semanticSearch(query, documents)`: per-document results, then a stable
descending sort by `overallScore`. -/
def semanticSearch (q : JSStr) (docs : List UploadedPDF) : List SemanticSearchResult :=
  jsSortDesc (fun r => r.overallScore) (rawResults q docs)

/-- Effectful form of `mkResult`, propagating a similarity error. -/
def mkResultE (q : JSStr) (d : UploadedPDF) : JSRes (Option SemanticSearchResult) :=
  (mapE (chunkStepE q d.content.length) ((chunkDocument d.content 500).enum)).map fun opts =>
    let rc := opts.filterMap id
    if rc.length = 0 then none
    else some ⟨d.id, d.name, (jsSortDesc (fun c => c.score) rc).take 3,
      ((rc.map fun c => c.score).sum : ℚ) / (rc.length : ℚ)⟩

/-- The `try` body of `semanticSearch` with error propagation: were any
similarity computation to throw, the surrounding `catch` would rethrow
`Failed to perform semantic search`. -/
def semanticSearchE (q : JSStr) (docs : List UploadedPDF) : JSRes (List SemanticSearchResult) :=
  (mapE (mkResultE q) docs).map fun opts =>
    jsSortDesc (fun r => r.overallScore) (opts.filterMap id)

/-- Relevance-scorer contract as the spec words it (for comparison with the
code's `calculateSemanticSimilarity`): lowercase and whitespace-tokenize both
inputs.  Whitespace tokenization keeps only the maximal non-whitespace runs. -/
def specTokens (s : JSStr) : List JSStr :=
  (splitWS (jsLower s)).filter fun tok => !tok.isEmpty

/-- Relevance score as the spec words it:
`matches / max(1, queryTokenCount)`, with bidirectional containment. -/
def specScore (q t : JSStr) : ℚ :=
  let qw := specTokens q
  let tw := specTokens t
  (qw.countP (wordMatches tw) : ℚ) / ((max 1 qw.length : Nat) : ℚ)

/-! ### Context assembly in `sendMessage` (`InviteHandler.tsx`) -/

/-- A file as seen by `sendMessage` (name and textual content). -/
structure JSFile where
  name : JSStr
  content : JSStr
deriving DecidableEq

/-- The token budget `maxContextTokens` of `sendMessage`. -/
def maxContextTokens : Nat := 12000

/-- `availableTokens = maxContextTokens - currentTokens`: the source performs
plain subtraction with no clamp, so the value can be negative. -/
def availableTokens (base : Nat) : Int := (maxContextTokens : Int) - (base : Int)

/-- `tokensPerFile = Math.floor(availableTokens / relevantFiles.length)`:
floor division, toward negative infinity on a negative budget. -/
def tokensPerFile (base n : Nat) : Int := (availableTokens base).fdiv (n : Int)

/-- `maxCharsForFile = Math.max(tokensPerFile * 4, 500)`. -/
def maxCharsForFile (base n : Nat) : Nat := (max (tokensPerFile base n * 4) 500).toNat

/-- The structural-declaration keywords of the smart-truncation regex. -/
def declKeywords : List JSStr :=
  [("class").toList, ("function").toList, ("def").toList, ("public").toList,
    ("private").toList, ("interface").toList, ("type").toList, ("const").toList,
    ("let").toList, ("var").toList]

/-- A line the smart truncation keeps: its trimmed form starts with a
declaration keyword followed by a whitespace character, or is a comment
(`//` or `#`). -/
def isImportantLine (line : JSStr) : Bool :=
  let t := jsTrim line
  (declKeywords.any fun kw => isPre kw t && ((t.drop kw.length).headD 'x').isWhitespace) ||
    isPre (("//").toList) t || isPre (("#").toList) t

/-- Marker appended on hard truncation. -/
def truncMarker : JSStr := ("\n\n[Content truncated...]").toList

/-- Marker appended when only key definitions are kept. -/
def defsMarker : JSStr := ("\n\n[Showing key definitions only]").toList

/-- A single newline, the separator of `importantLines.join('\n')`. -/
def nlStr : JSStr := ("\n").toList

/-- The per-file content processing of `sendMessage`: verbatim when within
the character allowance; otherwise the structural lines when they fit, else a
hard character truncation.  Markers are appended as in the source. -/
def processContent (content : JSStr) (mc : Nat) : JSStr :=
  if mc < content.length then
    let important := (content.splitOn '\n').filter isImportantLine
    if 0 < important.length ∧ (jsJoin nlStr important).length < mc then
      jsJoin nlStr important ++ defsMarker
    else content.take mc ++ truncMarker
  else content

/-- Opening of the per-file header `--- ${file.name} ---\n`. -/
def hdrOpen : JSStr := ("--- ").toList

/-- Closing of the per-file header. -/
def hdrClose : JSStr := (" ---\n").toList

/-- One per-file block of the assembled context. -/
def fileBlock (mc : Nat) (f : JSFile) : JSStr :=
  hdrOpen ++ f.name ++ hdrClose ++ processContent f.content mc

/-- Opening of the context preamble `\n\nContext from files (`. -/
def ctxPre1 : JSStr := ("\n\nContext from files (").toList

/-- The `/` between the two counts of the preamble. -/
def ctxSlash : JSStr := ("/").toList

/-- Closing of the context preamble `" shown):\n"`. -/
def ctxPre2 : JSStr := (" shown):\n").toList

/-- The `\n\n` separator of `processedFiles.join('\n\n')`. -/
def nnStr : JSStr := ("\n\n").toList

/-- Decimal rendering of a count interpolated into the template strings. -/
def natStr (n : Nat) : JSStr := (toString n).toList

/-- Opening literal of the base system message. -/
def bsm1 : JSStr :=
  ("You are a helpful AI assistant for SmartWorkrooms company in the \"").toList

/-- Literal between the room name and the uploaded-file count. -/
def bsm2 : JSStr := ("\" chat room. The user has uploaded ").toList

/-- Literal between the uploaded-file count and the shown-file count. -/
def bsm3 : JSStr := (" files (showing ").toList

/-- Closing literal of the base system message. -/
def bsm4 : JSStr :=
  (" most relevant). Use the information from these files to answer questions when relevant. Always cite which file you're referencing.").toList

/-- The base system message whose token estimate seeds `currentTokens`. -/
def baseSystemMessage (roomName : JSStr) (uploadedLen shownLen : Nat) : JSStr :=
  bsm1 ++ roomName ++ bsm2 ++ natStr uploadedLen ++ bsm3 ++ natStr shownLen ++ bsm4

/-- `currentTokens` after the two `estimateTokens` additions: the token
estimate of the base system message plus that of the user message. -/
def baseTokens (msg roomName : JSStr) (uploadedLen shownLen : Nat) : Nat :=
  estimateTokens (baseSystemMessage roomName uploadedLen shownLen) + estimateTokens msg

/-- The assembled `fileContext` string (empty when no relevant files). -/
def fileContextStr (msg roomName : JSStr) (uploadedLen : Nat) (files : List JSFile) : JSStr :=
  if files.length = 0 then []
  else
    let mc := maxCharsForFile (baseTokens msg roomName uploadedLen files.length) files.length
    ctxPre1 ++ natStr files.length ++ ctxSlash ++ natStr uploadedLen ++ ctxPre2 ++
      jsJoin nnStr (files.map (fileBlock mc))

/-- The estimated token count of the assembled context: the base tokens the
code accumulates into `currentTokens` plus the estimate of `fileContext`. -/
def totalContextTokens (msg roomName : JSStr) (uploadedLen : Nat) (files : List JSFile) : Nat :=
  baseTokens msg roomName uploadedLen files.length +
    estimateTokens (fileContextStr msg roomName uploadedLen files)

/-- Character count of the fixed wrapper text of the assembled context: the
preamble with its two counts, each file's header (including its name) and a
marker allowance of 32 characters, and the block separators. -/
def wrapperChars (uploadedLen : Nat) (files : List JSFile) : Nat :=
  ctxPre1.length + (natStr files.length).length + ctxSlash.length +
    (natStr uploadedLen).length + ctxPre2.length +
    (files.map fun f => hdrOpen.length + f.name.length + hdrClose.length + 32).sum +
    2 * (files.length - 1)

/-! ### Smart file selection in `sendMessage` (`getRelevantFiles`) -/

/-- The source-code extensions receiving the fixed `+5` boost. -/
def srcExts : List JSStr := [("py").toList, ("js").toList, ("ts").toList, ("cs").toList]

/-- `file.name.split('.').pop()?.toLowerCase()`: the last dot-separated piece
of the file name, lowercased. -/
def fileExt (name : JSStr) : JSStr := jsLower ((name.splitOn '.').getLastD [])

/-- The relevance score of `getRelevantFiles`: `+10` per message word in the
file name, `+1` per message word in the content, `+5` for a recognized
source-code extension. -/
def fileScore (msg : JSStr) (f : JSFile) : Nat :=
  let ws := splitWS (jsLower msg)
  let fn := jsLower f.name
  let fc := jsLower f.content
  10 * ws.countP (fun w => isSubOf w fn) + ws.countP (fun w => isSubOf w fc) +
    (if fileExt f.name ∈ srcExts then 5 else 0)

/-- `getRelevantFiles`: the list unchanged when at most 20 files; otherwise a
stable descending sort by score, truncated to the top 20. -/
def getRelevantFiles (msg : JSStr) (files : List JSFile) : List JSFile :=
  if files.length ≤ 20 then files
  else (jsSortDesc (fileScore msg) files).take 20

/-! ### Concrete inputs used by the witnesses and counterexamples -/

/-- A one-character document for the search witnesses. -/
def wDoc : UploadedPDF := ⟨("i").toList, ("d").toList, ("a").toList⟩

/-- The single-result value `semanticSearch "a" [wDoc]` evaluates to. -/
def wRes : SemanticSearchResult :=
  ⟨("i").toList, ("d").toList, [⟨("a").toList, 1, 0, 1⟩], 1⟩

/-- The file with a 60000-character name used against the budget bound. -/
def cxFile : JSFile := ⟨List.replicate 60000 'a', ("b").toList⟩

/-- A small file for the budget-bound witness. -/
def w7File : JSFile := ⟨("f").toList, ("x").toList⟩

/-- Twenty-one identical files for the selection witness. -/
def w8Files : List JSFile := List.replicate 21 ⟨("a").toList, []⟩

/-! ## Theorems -/

theorem jsSortDesc_perm [LinearOrder β] (key : α → β) (l : List α) :
    (jsSortDesc key l).Perm l := by
  have h1 : ((l.enum).insertionSort (sortRel key)).map Prod.snd |>.Perm ((l.enum).map Prod.snd) :=
    (List.perm_insertionSort (sortRel key) l.enum).map Prod.snd
  simpa [jsSortDesc, List.enum, List.enumFrom_map_snd] using h1

theorem enum_pairwise_fst_lt (l : List α) : (l.enum).Pairwise fun a b => a.1 < b.1 := by
  have h : ((l.enum).map Prod.fst).Pairwise (· < ·) := by
    rw [List.enum, List.enumFrom_map_fst]
    exact List.pairwise_lt_range' 0 l.length
  exact List.pairwise_map.mp h

theorem enum_pairwise_of_pairwise {R : α → α → Prop} {l : List α} (h : l.Pairwise R) :
    (l.enum).Pairwise fun a b => R a.2 b.2 := by
  apply List.pairwise_map.mp
  rw [List.enum, List.enumFrom_map_snd]
  exact h

/-- Core stability property of the modelled JavaScript sort: the output is
sorted with higher keys first, and any relation `R` holding pairwise in the
input order still holds among key ties in the output. -/
theorem jsSortDesc_stable [LinearOrder β] (key : α → β) (R : α → α → Prop) (l : List α)
    (h : l.Pairwise R) :
    (jsSortDesc key l).Pairwise fun a b => key b < key a ∨ (key a = key b ∧ R a b) := by
  have henum : (l.enum).Pairwise fun a b => a.1 < b.1 ∧ R a.2 b.2 :=
    (enum_pairwise_fst_lt l).and (enum_pairwise_of_pairwise h)
  have htrans : ∀ a b, a ∈ l.enum → b ∈ l.enum → a.1 < b.1 → R a.2 b.2 := by
    intro a b ha hb hab
    obtain ⟨i, hi, hia⟩ := List.mem_iff_getElem.mp ha
    obtain ⟨j, hj, hjb⟩ := List.mem_iff_getElem.mp hb
    subst hia
    subst hjb
    rcases lt_trichotomy i j with hij | hij | hij
    · exact ((List.pairwise_iff_getElem.mp henum) i j hi hj hij).2
    · exfalso
      subst hij
      exact lt_irrefl _ hab
    · exfalso
      have := (List.pairwise_iff_getElem.mp henum) j i hj hi hij
      exact Nat.lt_asymm this.1 hab
  have hperm : ((l.enum).insertionSort (sortRel key)).Perm l.enum :=
    List.perm_insertionSort (sortRel key) l.enum
  have hsorted : ((l.enum).insertionSort (sortRel key)).Pairwise (sortRel key) :=
    List.sorted_insertionSort (sortRel key) l.enum
  have hnodup : (((l.enum).insertionSort (sortRel key)).map Prod.fst).Nodup := by
    rw [(hperm.map Prod.fst).nodup_iff]
    rw [List.enum, List.enumFrom_map_fst]
    exact List.nodup_range' 0 l.length
  have hne : ((l.enum).insertionSort (sortRel key)).Pairwise fun a b => a.1 ≠ b.1 :=
    List.pairwise_map.mp hnodup
  have hmain : ((l.enum).insertionSort (sortRel key)).Pairwise
      fun a b => key b.2 < key a.2 ∨ (key a.2 = key b.2 ∧ R a.2 b.2) := by
    refine (hsorted.and hne).imp_of_mem ?_
    intro a b ha hb hab
    rcases hab.1 with hk | ⟨hk, hle⟩
    · exact Or.inl hk
    · refine Or.inr ⟨hk, htrans a b (hperm.mem_iff.mp ha) (hperm.mem_iff.mp hb) ?_⟩
      exact Nat.lt_of_le_of_ne hle hab.2
  exact List.pairwise_map.mpr hmain

theorem jsSortDesc_sorted [LinearOrder β] (key : α → β) (l : List α) :
    (jsSortDesc key l).Pairwise fun a b => key b ≤ key a := by
  have h := jsSortDesc_stable key (fun _ _ => True) l
    (List.pairwise_iff_forall_sublist.mpr fun _ => trivial)
  refine h.imp ?_
  intro a b hab
  rcases hab with hk | ⟨hk, _⟩
  · exact le_of_lt hk
  · exact le_of_eq hk.symm

theorem queryTokens_ne_nil (q : JSStr) : queryTokens q ≠ [] := by
  unfold queryTokens List.splitOn
  exact List.splitOnP_ne_nil _ _

theorem queryTokens_length_pos (q : JSStr) : 0 < (queryTokens q).length :=
  List.length_pos.mpr (queryTokens_ne_nil q)

/-- The guarded division in `calcSimE` never takes its error branch. -/
theorem calcSimE_eq_ok (q t : JSStr) :
    calcSimE q t = Except.ok (calculateSemanticSimilarity q t) := by
  unfold calculateSemanticSimilarity calcSimE
  rw [if_neg (Nat.pos_iff_ne_zero.mp (queryTokens_length_pos q))]

/-- Closed form of the similarity score. -/
theorem calcSim_eq (q t : JSStr) :
    calculateSemanticSimilarity q t =
      ((queryTokens q).countP (wordMatches ((jsLower t).splitOn ' ')) : ℚ) /
        ((queryTokens q).length : ℚ) := by
  unfold calculateSemanticSimilarity calcSimE
  rw [if_neg (Nat.pos_iff_ne_zero.mp (queryTokens_length_pos q))]

theorem calcSim_nonneg (q t : JSStr) : 0 ≤ calculateSemanticSimilarity q t := by
  rw [calcSim_eq]
  exact div_nonneg (Nat.cast_nonneg _) (Nat.cast_nonneg _)

theorem calcSim_le_one (q t : JSStr) : calculateSemanticSimilarity q t ≤ 1 := by
  rw [calcSim_eq]
  rw [div_le_one (by exact_mod_cast queryTokens_length_pos q)]
  exact_mod_cast List.countP_le_length _

theorem chunkAux_flatten (size : Nat) (hs : 0 < size) :
    ∀ fuel (l : JSStr), l.length ≤ fuel → (chunkAux size fuel l).flatten = l := by
  intro fuel
  induction fuel with
  | zero =>
    intro l hl
    rw [List.length_eq_zero.mp (Nat.le_zero.mp hl)]
    rfl
  | succ f ih =>
    intro l hl
    cases l with
    | nil => rfl
    | cons c cs =>
      rw [chunkAux, List.flatten_cons, ih ((c :: cs).drop size) ?hdrop, List.take_append_drop]
      case hdrop =>
        rw [List.length_drop]
        simp only [List.length_cons] at hl ⊢
        omega

theorem chunkAux_ne_nil (size : Nat) :
    ∀ fuel (l : JSStr), l ≠ [] → chunkAux size fuel l ≠ [] := by
  intro fuel l hl
  cases l with
  | nil => exact absurd rfl hl
  | cons c cs =>
    cases fuel with
    | zero => simp [chunkAux]
    | succ f => simp [chunkAux]

theorem chunkAux_mem (size : Nat) (hs : 0 < size) :
    ∀ fuel (l : JSStr), l.length ≤ fuel →
      ∀ c ∈ chunkAux size fuel l, c.length ≤ size ∧ c ≠ [] := by
  intro fuel
  induction fuel with
  | zero =>
    intro l hl c hc
    rw [List.length_eq_zero.mp (Nat.le_zero.mp hl)] at hc
    simp [chunkAux] at hc
  | succ f ih =>
    intro l hl c hc
    cases l with
    | nil => simp [chunkAux] at hc
    | cons a as =>
      rw [chunkAux] at hc
      rcases List.mem_cons.mp hc with h | h
      · subst h
        constructor
        · rw [List.length_take]
          exact min_le_left _ _
        · have hlen : 0 < ((a :: as).take size).length := by
            rw [List.length_take]
            simp only [List.length_cons]
            omega
          exact List.length_pos.mp hlen
      · refine ih _ ?_ c h
        rw [List.length_drop]
        simp only [List.length_cons] at hl ⊢
        omega

theorem chunkAux_dropLast (size : Nat) (hs : 0 < size) :
    ∀ fuel (l : JSStr), l.length ≤ fuel →
      ∀ c ∈ (chunkAux size fuel l).dropLast, c.length = size := by
  intro fuel
  induction fuel with
  | zero =>
    intro l hl c hc
    rw [List.length_eq_zero.mp (Nat.le_zero.mp hl)] at hc
    simp [chunkAux] at hc
  | succ f ih =>
    intro l hl c hc
    cases l with
    | nil => simp [chunkAux] at hc
    | cons a as =>
      rw [chunkAux] at hc
      rcases hdrop : (a :: as).drop size with _ | ⟨d, ds⟩
      · rw [hdrop] at hc
        simp [chunkAux] at hc
      · have hne : chunkAux size f ((a :: as).drop size) ≠ [] := by
          rw [hdrop]
          exact chunkAux_ne_nil size f _ (List.cons_ne_nil d ds)
        rw [List.dropLast_cons_of_ne_nil hne] at hc
        rcases List.mem_cons.mp hc with h | h
        · subst h
          have hlt : size < (a :: as).length := by
            have := congrArg List.length hdrop
            rw [List.length_drop] at this
            simp only [List.length_cons] at this ⊢
            omega
          rw [List.length_take]
          omega
        · refine ih _ ?_ c h
          rw [List.length_drop]
          simp only [List.length_cons] at hl ⊢
          omega

theorem mapE_eq_ok {f : α → JSRes β} {g : α → β} :
    ∀ {l : List α}, (∀ a ∈ l, f a = Except.ok (g a)) → mapE f l = Except.ok (l.map g) := by
  intro l
  induction l with
  | nil => intro _; rfl
  | cons a as ih =>
    intro h
    rw [mapE, h a (List.mem_cons_self a as), ih fun x hx => h x (List.mem_cons_of_mem a hx)]
    rfl

theorem chunkStepE_eq_ok (q : JSStr) (n : Nat) (p : Nat × JSStr) :
    chunkStepE q n p = Except.ok (chunkStep q n p) := by
  unfold chunkStepE chunkStep
  rw [calcSimE_eq_ok]
  rfl

theorem mkResultE_eq_ok (q : JSStr) (d : UploadedPDF) :
    mkResultE q d = Except.ok (mkResult q d) := by
  unfold mkResultE
  rw [mapE_eq_ok fun p _ => chunkStepE_eq_ok q d.content.length p]
  unfold mkResult passingChunks
  simp only [Except.map, List.filterMap_map, Function.id_comp]

theorem semanticSearchE_eq_ok (q : JSStr) (docs : List UploadedPDF) :
    semanticSearchE q docs = Except.ok (semanticSearch q docs) := by
  unfold semanticSearchE
  rw [mapE_eq_ok fun d _ => mkResultE_eq_ok q d]
  unfold semanticSearch rawResults
  simp only [Except.map, List.filterMap_map, Function.id_comp]

theorem isSubOf_nil (hay : JSStr) : isSubOf [] hay = true := by
  cases hay with
  | nil => rfl
  | cons c cs => simp [isSubOf, isPre]

/-- With no fuel left over an empty-token query, every text matches the
single empty query token, so the code scores the empty query as `1`. -/
theorem calcSim_nil_query (t : JSStr) : calculateSemanticSimilarity [] t = 1 := by
  rw [calcSim_eq]
  have hq : queryTokens [] = [[]] := by
    unfold queryTokens jsLower
    simp [List.splitOn_nil]
  rw [hq]
  obtain ⟨w, hw⟩ := List.exists_mem_of_ne_nil _ (List.splitOnP_ne_nil (· == ' ') (jsLower t))
  have hm : wordMatches ((jsLower t).splitOn ' ') [] = true := by
    unfold wordMatches
    rw [List.any_eq_true]
    exact ⟨w, hw, by rw [isSubOf_nil]; rfl⟩
  simp [List.countP_cons, hm]

/-- Pairwise transport along `filterMap`. -/
theorem pairwise_filterMap_of {f : α → Option β} {R : α → α → Prop} {S : β → β → Prop}
    (H : ∀ a b x y, R a b → f a = some x → f b = some y → S x y) :
    ∀ {l : List α}, l.Pairwise R → (l.filterMap f).Pairwise S := by
  intro l
  induction l with
  | nil => intro _; simp
  | cons a as ih =>
    intro h
    rw [List.pairwise_cons] at h
    rw [List.filterMap_cons]
    cases hfa : f a with
    | none => exact ih h.2
    | some x =>
      rw [List.pairwise_cons]
      refine ⟨?_, ih h.2⟩
      intro y hy
      obtain ⟨b, hb, hfb⟩ := List.mem_filterMap.mp hy
      exact H a b x y (h.1 b hb) hfa hfb

/-- The spec formula for the per-file character allowance agrees with the
computed one: clamping the available budget at zero before the floor division
yields the same allowance as the code's unclamped floor division, because the
500-character floor absorbs every nonpositive budget. -/
theorem maxCharsForFile_eq (base n : Nat) (hn : 0 < n) :
    maxCharsForFile base n = max ((maxContextTokens - base) / n * 4) 500 := by
  unfold maxCharsForFile tokensPerFile availableTokens
  rcases Nat.le_total base maxContextTokens with hb | hb
  · have h1 : (maxContextTokens : Int) - (base : Int) = ((maxContextTokens - base : Nat) : Int) := by
      omega
    rw [h1, ← Int.ofNat_fdiv]
    omega
  · rcases Nat.eq_or_lt_of_le hb with hb' | hb'
    · have h0 : (maxContextTokens : Int) - (base : Int) = 0 := by omega
      rw [h0, Int.zero_fdiv]
      have h2 : maxContextTokens - base = 0 := by omega
      rw [h2, Nat.zero_div]
      omega
    · have hneg : (maxContextTokens : Int) - (base : Int) < 0 := by omega
      have hnz : (0 : Int) < (n : Int) := by exact_mod_cast hn
      have hfd := Int.fdiv_neg' hneg hnz
      have h2 : maxContextTokens - base = 0 := by omega
      rw [h2, Nat.zero_div]
      omega

/-- Length of the modelled `join`. -/
theorem jsJoin_length (sep : JSStr) :
    ∀ l : List JSStr, (jsJoin sep l).length = (l.map List.length).sum + sep.length * (l.length - 1) := by
  intro l
  induction l with
  | nil => rfl
  | cons x xs ih =>
    cases xs with
    | nil => simp [jsJoin]
    | cons y ys =>
      rw [jsJoin, List.length_append, List.length_append, ih]
      simp only [List.map_cons, List.sum_cons, List.length_cons, Nat.add_sub_cancel]
      rw [Nat.mul_succ]
      omega

/-- Every processed file content stays within the allowance plus the longest
marker (32 characters). -/
theorem processContent_length_le (content : JSStr) (mc : Nat) :
    (processContent content mc).length ≤ mc + 32 := by
  unfold processContent
  dsimp only
  split
  · split
    · next hfits =>
      rw [List.length_append]
      have h32 : defsMarker.length = 32 := by decide
      omega
    · rw [List.length_append, List.length_take]
      have h24 : truncMarker.length = 24 := by decide
      omega
  · next hle => omega

/-- C1 counterexample: on the empty query and the text `"x"`, the scorer does
not return `0` (JavaScript `''.split(' ')` is `['']`, and the empty token
matches every text, so the score is `1`). -/
theorem c1_counterexample : ¬ (calculateSemanticSimilarity [] (("x").toList) = 0) := by
  decide

/-- C1 (amended): for the empty query string and every text, the relevance
scorer `calculateSemanticSimilarity` returns `1`. -/
theorem c1_empty_query_scores_one : ∀ t : JSStr, calculateSemanticSimilarity [] t = 1 :=
  calcSim_nil_query

/-- C2 counterexample: `semanticSearch` with the empty query over one document
with nonempty content returns a nonempty result list, not the empty list. -/
theorem c2_counterexample : ¬ (semanticSearch [] [wDoc] = []) := by
  decide

/-- C2 (amended): `semanticSearch` on an empty document list returns the
empty result list and raises no error for every query; on an empty query it
raises no error, but it returns a nonempty result list whenever some document
has nonempty content. -/
theorem c2_empty_inputs :
    (∀ q : JSStr, semanticSearch q [] = [] ∧ semanticSearchE q [] = Except.ok []) ∧
    (∀ docs : List UploadedPDF, semanticSearchE [] docs = Except.ok (semanticSearch [] docs)) ∧
    (∀ (docs : List UploadedPDF) (d : UploadedPDF), d ∈ docs → d.content ≠ [] →
      semanticSearch [] docs ≠ []) := by
  refine ⟨fun q => ⟨rfl, rfl⟩, fun docs => semanticSearchE_eq_ok [] docs, ?_⟩
  intro docs d hd hc
  have hchunks : chunkDocument d.content 500 ≠ [] := by
    unfold chunkDocument
    exact chunkAux_ne_nil 500 _ _ hc
  have henum : (chunkDocument d.content 500).enum ≠ [] := by
    unfold List.enum
    rw [Ne, List.enumFrom_eq_nil]
    exact hchunks
  obtain ⟨p, hp⟩ := List.exists_mem_of_ne_nil _ henum
  have hstep : chunkStep [] d.content.length p =
      some ⟨p.2, 1, p.1 * 500, min ((p.1 + 1) * 500) d.content.length⟩ := by
    unfold chunkStep
    rw [calcSim_nil_query]
    rw [if_pos (by norm_num : (3 : ℚ) / 10 < 1)]
  have hpass : (⟨p.2, 1, p.1 * 500, min ((p.1 + 1) * 500) d.content.length⟩ : ChunkResult) ∈
      passingChunks [] d.content :=
    List.mem_filterMap.mpr ⟨p, hp, hstep⟩
  have hrc : (passingChunks [] d.content).length ≠ 0 := by
    intro h0
    rw [List.length_eq_zero.mp h0] at hpass
    exact absurd hpass (List.not_mem_nil _)
  have hmk : ∃ r, mkResult [] d = some r := by
    unfold mkResult
    rw [if_neg hrc]
    exact ⟨_, rfl⟩
  obtain ⟨r, hr⟩ := hmk
  have hraw : r ∈ rawResults [] docs := List.mem_filterMap.mpr ⟨d, hd, hr⟩
  have hmem : r ∈ semanticSearch [] docs := by
    unfold semanticSearch
    exact (jsSortDesc_perm (fun r => r.overallScore) (rawResults [] docs)).mem_iff.mpr hraw
  exact List.ne_nil_of_mem hmem

/-- C2 witness: the amended claim at concrete inputs — the empty corpus gives
the empty result list, and the empty query over one nonempty document gives a
nonempty result list. -/
theorem c2_witness :
    semanticSearch (("x").toList) [] = [] ∧ semanticSearch [] [wDoc] ≠ [] :=
  ⟨(c2_empty_inputs.1 (("x").toList)).1,
    c2_empty_inputs.2.2 [wDoc] wDoc (by decide) (by decide)⟩

/-- C4 counterexample: the code splits on the single space character, not on
whitespace runs.  On query `"a  b"` (two spaces) and text `"x"`, the spec
contract scores `0` but the code scores `1/3` (the empty middle token
matches `"x"`). -/
theorem c4_counterexample :
    calculateSemanticSimilarity (("a  b").toList) (("x").toList) ≠
      specScore (("a  b").toList) (("x").toList) := by
  decide

/-- C4 (amended): the scorer lowercases both inputs and splits each on the
single space character (consecutive, leading or trailing spaces and the
empty string yield empty tokens, which match every text); a query token
matches when some text token contains it or it contains that text token; the
result is `matches / queryTokenCount`, where `queryTokenCount ≥ 1` is the
number of split pieces, and it always lies in `[0, 1]`. -/
theorem c4_score_formula :
    ∀ q t : JSStr,
      calculateSemanticSimilarity q t =
        ((queryTokens q).countP (wordMatches ((jsLower t).splitOn ' ')) : ℚ) /
          ((queryTokens q).length : ℚ) ∧
      1 ≤ (queryTokens q).length ∧
      0 ≤ calculateSemanticSimilarity q t ∧ calculateSemanticSimilarity q t ≤ 1 :=
  fun q t => ⟨calcSim_eq q t, queryTokens_length_pos q, calcSim_nonneg q t, calcSim_le_one q t⟩

/-- C9: `chunkDocument` with window 500 is a lossless partition: flattening
the chunks in order reproduces the content, every chunk except possibly the
last has exactly 500 characters, every chunk is nonempty with at most 500
characters, and empty content yields the empty chunk list. -/
theorem c9_chunk_partition (content : JSStr) :
    (chunkDocument content 500).flatten = content ∧
    (∀ c ∈ (chunkDocument content 500).dropLast, c.length = 500) ∧
    (∀ c ∈ chunkDocument content 500, c.length ≤ 500 ∧ c ≠ []) ∧
    (content = [] → chunkDocument content 500 = []) := by
  refine ⟨?_, ?_, ?_, ?_⟩
  · exact chunkAux_flatten 500 (by norm_num) content.length content le_rfl
  · exact chunkAux_dropLast 500 (by norm_num) content.length content le_rfl
  · exact chunkAux_mem 500 (by norm_num) content.length content le_rfl
  · intro h
    subst h
    rfl

set_option maxRecDepth 40000 in
/-- C9 witness: a 501-character document splits so that flattening restores
it, and its non-final chunk — the 500-character window — is a member of
`dropLast` with length exactly 500. -/
theorem c9_witness :
    (chunkDocument (List.replicate 501 'a') 500).flatten = List.replicate 501 'a' ∧
    (List.replicate 500 'a').length = 500 :=
  ⟨(c9_chunk_partition (List.replicate 501 'a')).1,
    (c9_chunk_partition (List.replicate 501 'a')).2.1 (List.replicate 500 'a') (by decide)⟩

/-- C10: the search never throws — the guarded similarity computation always
returns a value (its catch-and-return-0 branch is unreachable), and the
effectful `semanticSearch` always returns `ok` of the pure result, so its
`Failed to perform semantic search` branch is unreachable. -/
theorem c10_search_total :
    (∀ q t : JSStr, calcSimE q t = Except.ok (calculateSemanticSimilarity q t)) ∧
    (∀ (q : JSStr) (docs : List UploadedPDF),
      semanticSearchE q docs = Except.ok (semanticSearch q docs)) :=
  ⟨calcSimE_eq_ok, semanticSearchE_eq_ok⟩

theorem passingChunks_score (q content : JSStr) :
    ∀ c ∈ passingChunks q content, (3 : ℚ) / 10 < c.score := by
  intro c hc
  obtain ⟨p, hp, hstep⟩ := List.mem_filterMap.mp hc
  unfold chunkStep at hstep
  dsimp only at hstep
  split at hstep
  · next hgt =>
    injection hstep with h'
    subst h'
    exact hgt
  · exact absurd hstep (by simp)

theorem passingChunks_startIndex_lt (q content : JSStr) :
    (passingChunks q content).Pairwise fun a b => a.startIndex < b.startIndex := by
  refine pairwise_filterMap_of ?_ (enum_pairwise_fst_lt _)
  intro p p' x y hlt hx hy
  unfold chunkStep at hx hy
  dsimp only at hx hy
  split at hx
  · injection hx with h'
    subst h'
    split at hy
    · injection hy with h''
      subst h''
      dsimp only
      omega
    · exact absurd hy (by simp)
  · exact absurd hx (by simp)

theorem mkResult_eq_some {q : JSStr} {d : UploadedPDF} {r : SemanticSearchResult}
    (h : mkResult q d = some r) :
    r.documentId = d.id ∧ r.documentName = d.name ∧
    r.relevantChunks = (jsSortDesc (fun c => c.score) (passingChunks q d.content)).take 3 ∧
    r.overallScore =
      ((passingChunks q d.content).map fun c => c.score).sum /
        ((passingChunks q d.content).length : ℚ) := by
  unfold mkResult at h
  dsimp only at h
  split at h
  · exact absurd h (by simp)
  · injection h with h'
    subst h'
    exact ⟨rfl, rfl, rfl, rfl⟩

/-- C3: result invariants of `semanticSearch`: every kept chunk scores above
the `0.3` threshold; at most 3 chunks are kept per result, sorted descending
by score with the stable tie-break on original chunk order (`startIndex`);
each result carries its document's identity, the top-3 sorted passing chunks,
and an `overallScore` equal to the arithmetic mean (sum over count) of all
passing chunk scores of that document; and the result list is sorted
descending by `overallScore`, any relation holding pairwise in original
document order being preserved among ties (stability). -/
theorem c3_search_invariants (q : JSStr) (docs : List UploadedPDF) :
    (∀ r ∈ semanticSearch q docs,
      (∀ c ∈ r.relevantChunks, (3 : ℚ) / 10 < c.score) ∧
      r.relevantChunks.length ≤ 3 ∧
      r.relevantChunks.Pairwise
        (fun a b => b.score < a.score ∨ (a.score = b.score ∧ a.startIndex < b.startIndex)) ∧
      ∃ d ∈ docs, r.documentId = d.id ∧ r.documentName = d.name ∧
        r.overallScore =
          ((passingChunks q d.content).map fun c => c.score).sum /
            ((passingChunks q d.content).length : ℚ) ∧
        r.relevantChunks = (jsSortDesc (fun c => c.score) (passingChunks q d.content)).take 3) ∧
    (semanticSearch q docs).Pairwise (fun a b => b.overallScore ≤ a.overallScore) ∧
    (∀ R : SemanticSearchResult → SemanticSearchResult → Prop,
      (rawResults q docs).Pairwise R →
      (semanticSearch q docs).Pairwise
        (fun a b => b.overallScore < a.overallScore ∨ (a.overallScore = b.overallScore ∧ R a b))) := by
  refine ⟨?_, ?_, ?_⟩
  · intro r hr
    have hraw : r ∈ rawResults q docs := by
      unfold semanticSearch at hr
      exact (jsSortDesc_perm (fun r => r.overallScore) (rawResults q docs)).mem_iff.mp hr
    obtain ⟨d, hd, hmk⟩ := List.mem_filterMap.mp hraw
    obtain ⟨hid, hname, hchunks, hscore⟩ := mkResult_eq_some hmk
    refine ⟨?_, ?_, ?_, d, hd, hid, hname, hscore, hchunks⟩
    · intro c hc
      rw [hchunks] at hc
      have hc1 : c ∈ jsSortDesc (fun c => c.score) (passingChunks q d.content) :=
        List.mem_of_mem_take hc
      have hc2 : c ∈ passingChunks q d.content :=
        (jsSortDesc_perm (fun c => c.score) (passingChunks q d.content)).mem_iff.mp hc1
      exact passingChunks_score q d.content c hc2
    · rw [hchunks, List.length_take]
      exact min_le_left _ _
    · rw [hchunks]
      exact List.Pairwise.sublist (List.take_sublist 3 _)
        (jsSortDesc_stable (fun c => c.score) _ _ (passingChunks_startIndex_lt q d.content))
  · show (jsSortDesc (fun r => r.overallScore) (rawResults q docs)).Pairwise _
    exact jsSortDesc_sorted _ _
  · intro R hR
    show (jsSortDesc (fun r => r.overallScore) (rawResults q docs)).Pairwise _
    exact jsSortDesc_stable _ R _ hR

/-- C3 witness: on the query `"a"` over the one-document corpus `[wDoc]`, the
single result `wRes` satisfies the invariants at a concrete input. -/
theorem c3_witness :
    wRes.relevantChunks.length ≤ 3 ∧ (∃ d ∈ [wDoc], wRes.documentId = d.id) ∧
    (semanticSearch (("a").toList) [wDoc]).Pairwise
      (fun a b => b.overallScore ≤ a.overallScore) := by
  have h := c3_search_invariants (("a").toList) [wDoc]
  have h1 := h.1 wRes (by decide)
  refine ⟨h1.2.1, ?_, h.2.1⟩
  obtain ⟨d, hd, hid, _⟩ := h1.2.2.2
  exact ⟨d, hd, hid⟩

/-- C5: for a positive file count, the code's per-file character allowance
equals the spec's formula `max(floor(max(0, maxContextTokens − baseTokens) /
numFiles) × 4, 500)` (natural subtraction is the `max(0, ·)` clamp), and a
zero-or-negative available budget degrades to the 500-character floor; the
computation is total, so no error is raised. -/
theorem c5_budget_formulas (base n : Nat) (hn : 0 < n) :
    maxCharsForFile base n = max ((maxContextTokens - base) / n * 4) 500 ∧
    (maxContextTokens ≤ base → maxCharsForFile base n = 500) := by
  refine ⟨maxCharsForFile_eq base n hn, fun hb => ?_⟩
  rw [maxCharsForFile_eq base n hn]
  have h0 : maxContextTokens - base = 0 := by omega
  rw [h0, Nat.zero_div]
  omega

/-- C5 witness: with base tokens 13000 (over budget) and 2 files, the
allowance is the 500-character floor and matches the spec formula. -/
theorem c5_witness :
    maxCharsForFile 13000 2 = max ((maxContextTokens - 13000) / 2 * 4) 500 ∧
    maxCharsForFile 13000 2 = 500 :=
  ⟨(c5_budget_formulas 13000 2 (by norm_num)).1,
    (c5_budget_formulas 13000 2 (by norm_num)).2 (by decide)⟩

/-- C6: when the content exceeds the character allowance and no line of it is
a structural declaration or a comment, the per-file content is exactly the
first `maxCharsForFile` characters followed by the truncation marker. -/
theorem c6_hard_truncation (content : JSStr) (mc : Nat)
    (hlen : mc < content.length)
    (hnone : (content.splitOn '\n').filter isImportantLine = []) :
    processContent content mc = content.take mc ++ truncMarker ∧
    (processContent content mc).length = mc + truncMarker.length := by
  have hmain : processContent content mc = content.take mc ++ truncMarker := by
    unfold processContent
    dsimp only
    rw [if_pos hlen, hnone]
    rw [if_neg (by simp)]
  refine ⟨hmain, ?_⟩
  rw [hmain, List.length_append, List.length_take]
  omega

set_option maxRecDepth 40000 in
/-- C6 witness: a 501-character single-line document with allowance 500 is
truncated to exactly its first 500 characters plus the marker. -/
theorem c6_witness :
    processContent (List.replicate 501 'a') 500 =
      (List.replicate 501 'a').take 500 ++ truncMarker ∧
    (processContent (List.replicate 501 'a') 500).length = 500 + truncMarker.length :=
  c6_hard_truncation (List.replicate 501 'a') 500 (by decide) (by decide)

theorem sum_map_add_const (files : List JSFile) (g : JSFile → Nat) (c : Nat) :
    (files.map fun f => g f + c).sum = (files.map g).sum + files.length * c := by
  induction files with
  | nil => simp
  | cons f fs ih =>
    simp only [List.map_cons, List.sum_cons, List.length_cons, ih]
    ring

/-- C7 (amended): the assembled context can exceed `maxContextTokens` by more
than `numFiles × 125` only through the base-message overflow and the wrapper
text (preamble, per-file headers with file names, separators, markers); with
those accounted, the bound holds. -/
theorem c7_budget_bound (msg roomName : JSStr) (uploadedLen : Nat) (files : List JSFile)
    (hn : 0 < files.length) :
    totalContextTokens msg roomName uploadedLen files ≤
      maxContextTokens + 125 * files.length +
        (baseTokens msg roomName uploadedLen files.length - maxContextTokens) +
        (wrapperChars uploadedLen files + 3) / 4 := by
  have hmcsum : files.length *
      maxCharsForFile (baseTokens msg roomName uploadedLen files.length) files.length ≤
      4 * (maxContextTokens - baseTokens msg roomName uploadedLen files.length) +
        500 * files.length := by
    rw [maxCharsForFile_eq _ _ hn]
    rcases Nat.le_total
      ((maxContextTokens - baseTokens msg roomName uploadedLen files.length) / files.length * 4)
      500 with h | h
    · rw [max_eq_right h]
      omega
    · rw [max_eq_left h]
      have h1 : files.length *
          ((maxContextTokens - baseTokens msg roomName uploadedLen files.length) /
            files.length * 4) =
          4 * ((maxContextTokens - baseTokens msg roomName uploadedLen files.length) /
            files.length * files.length) := by
        ring
      have h2 : 4 * ((maxContextTokens - baseTokens msg roomName uploadedLen files.length) /
            files.length * files.length) ≤
          4 * (maxContextTokens - baseTokens msg roomName uploadedLen files.length) :=
        Nat.mul_le_mul_left 4 (Nat.div_mul_le_self _ _)
      omega
  have hblock : ∀ f ∈ files,
      (fileBlock (maxCharsForFile (baseTokens msg roomName uploadedLen files.length)
        files.length) f).length ≤
      (hdrOpen.length + f.name.length + hdrClose.length + 32) +
        maxCharsForFile (baseTokens msg roomName uploadedLen files.length) files.length := by
    intro f hf
    unfold fileBlock
    simp only [List.length_append]
    have hp := processContent_length_le f.content
      (maxCharsForFile (baseTokens msg roomName uploadedLen files.length) files.length)
    omega
  have hsum : ((files.map (fileBlock (maxCharsForFile
      (baseTokens msg roomName uploadedLen files.length) files.length))).map List.length).sum ≤
      (files.map fun f => hdrOpen.length + f.name.length + hdrClose.length + 32).sum +
        files.length *
          maxCharsForFile (baseTokens msg roomName uploadedLen files.length) files.length := by
    rw [List.map_map]
    calc (files.map (List.length ∘ fileBlock (maxCharsForFile
        (baseTokens msg roomName uploadedLen files.length) files.length))).sum
        ≤ (files.map fun f => (hdrOpen.length + f.name.length + hdrClose.length + 32) +
            maxCharsForFile (baseTokens msg roomName uploadedLen files.length)
              files.length).sum :=
          List.sum_le_sum fun f hf => hblock f hf
      _ = _ := sum_map_add_const files _ _
  have hnn : nnStr.length = 2 := by decide
  have hfcs : (fileContextStr msg roomName uploadedLen files).length ≤
      wrapperChars uploadedLen files +
        (4 * (maxContextTokens - baseTokens msg roomName uploadedLen files.length) +
          500 * files.length) := by
    unfold fileContextStr
    rw [if_neg (by omega : ¬ files.length = 0)]
    dsimp only
    simp only [List.length_append]
    rw [jsJoin_length, List.length_map]
    unfold wrapperChars
    rw [hnn]
    omega
  have hdiv : (wrapperChars uploadedLen files +
      (4 * (maxContextTokens - baseTokens msg roomName uploadedLen files.length) +
        500 * files.length) + 3) / 4 =
      (wrapperChars uploadedLen files + 3) / 4 +
        ((maxContextTokens - baseTokens msg roomName uploadedLen files.length) +
          125 * files.length) := by
    have h1 : wrapperChars uploadedLen files +
        (4 * (maxContextTokens - baseTokens msg roomName uploadedLen files.length) +
          500 * files.length) + 3 =
        wrapperChars uploadedLen files + 3 +
          4 * ((maxContextTokens - baseTokens msg roomName uploadedLen files.length) +
            125 * files.length) := by
      ring
    rw [h1, Nat.add_mul_div_left _ _ (by norm_num : 0 < 4)]
  have hest : estimateTokens (fileContextStr msg roomName uploadedLen files) ≤
      (wrapperChars uploadedLen files + 3) / 4 +
        ((maxContextTokens - baseTokens msg roomName uploadedLen files.length) +
          125 * files.length) := by
    unfold estimateTokens
    rw [← hdiv]
    exact Nat.div_le_div_right (by omega)
  unfold totalContextTokens
  omega

/-- C7 witness: the amended bound at a concrete one-file assembly. -/
theorem c7_witness :
    totalContextTokens [] (("r").toList) 1 [w7File] ≤
      maxContextTokens + 125 * ([w7File] : List JSFile).length +
        (baseTokens [] (("r").toList) 1 ([w7File] : List JSFile).length - maxContextTokens) +
        (wrapperChars 1 [w7File] + 3) / 4 :=
  c7_budget_bound [] (("r").toList) 1 [w7File] (by decide)

theorem totalContextTokens_unfold (msg roomName : JSStr) (u : Nat) (files : List JSFile) :
    totalContextTokens msg roomName u files =
      baseTokens msg roomName u files.length +
        estimateTokens (fileContextStr msg roomName u files) := rfl

theorem estimateTokens_unfold (s : JSStr) : estimateTokens s = (s.length + 3) / 4 := rfl

set_option maxRecDepth 100000 in
/-- C7 counterexample: one file whose name has 60000 characters: the
assembled context estimate exceeds `maxContextTokens + numFiles × 125`
(the original bound ignores the per-file headers and markers). -/
theorem c7_counterexample :
    maxContextTokens + 125 * ([cxFile] : List JSFile).length <
      totalContextTokens [] (("r").toList) 1 [cxFile] := by
  have hlen : ([cxFile] : List JSFile).length = 1 := rfl
  have hB : baseTokens [] (("r").toList) 1 1 = 63 := by decide
  have hmc : maxCharsForFile 63 1 = 47748 := by decide
  have hproc : processContent cxFile.content 47748 = ("b").toList := by decide
  have hfcs : (fileContextStr [] (("r").toList) 1 [cxFile]).length = 60044 := by
    unfold fileContextStr
    rw [if_neg (by rw [hlen]; norm_num)]
    dsimp only
    rw [hlen, hB, hmc]
    simp only [List.map_cons, List.map_nil]
    rw [show jsJoin nnStr [fileBlock 47748 cxFile] = fileBlock 47748 cxFile from rfl]
    unfold fileBlock
    rw [hproc]
    simp only [List.length_append]
    rw [show cxFile.name.length = 60000 from by
      show (List.replicate 60000 'a').length = 60000
      rw [List.length_replicate]]
    decide
  have hE : estimateTokens (fileContextStr [] (("r").toList) 1 [cxFile]) = 15011 :=
    (estimateTokens_unfold _).trans (by rw [hfcs])
  have h1 : baseTokens [] (("r").toList) 1 ([cxFile] : List JSFile).length = 63 :=
    (congrArg (fun x => baseTokens [] (("r").toList) 1 x) hlen).trans hB
  have h2 : totalContextTokens [] (("r").toList) 1 [cxFile] = 15074 :=
    (totalContextTokens_unfold [] (("r").toList) 1 [cxFile]).trans (by rw [h1, hE])
  rw [h2, hlen]
  decide

/-- C8: `getRelevantFiles` returns the list unchanged when it has at most 20
files; the result always has at most 20 files; and above 20 files the result
is sorted descending by `fileScore` with the stable tie-break: any relation
holding pairwise in the original order still holds among equal-score files. -/
theorem c8_file_selection (msg : JSStr) (files : List JSFile)
    (R : JSFile → JSFile → Prop) (hR : files.Pairwise R) :
    (files.length ≤ 20 → getRelevantFiles msg files = files) ∧
    (getRelevantFiles msg files).length ≤ 20 ∧
    (20 < files.length →
      (getRelevantFiles msg files).Pairwise
        (fun a b => fileScore msg b < fileScore msg a ∨
          (fileScore msg a = fileScore msg b ∧ R a b))) := by
  unfold getRelevantFiles
  by_cases h : files.length ≤ 20
  · rw [if_pos h]
    exact ⟨fun _ => rfl, h, fun h' => absurd h' (by omega)⟩
  · rw [if_neg h]
    refine ⟨fun h' => absurd h' h, ?_, fun _ => ?_⟩
    · rw [List.length_take]
      exact min_le_left _ _
    · exact List.Pairwise.sublist (List.take_sublist 20 _)
        (jsSortDesc_stable (fileScore msg) R files hR)

/-- C8 witness: twenty-one identical files are cut to at most 20, sorted with
the stable tie-break for the trivially true pairwise relation. -/
theorem c8_witness :
    (getRelevantFiles [] w8Files).length ≤ 20 ∧
    (getRelevantFiles [] w8Files).Pairwise
      (fun a b => fileScore [] b < fileScore [] a ∨
        (fileScore [] a = fileScore [] b ∧ a.name = b.name)) := by
  have h := c8_file_selection [] w8Files (fun a b => a.name = b.name) (by decide)
  exact ⟨h.2.1, h.2.2 (by decide)⟩
